import Mathlib

/-!
Verification of the natural-language specification of the
`dashboard-afluencia-metro-cdmx` dashboard (`src/main.py`) against a shallow
embedding of its data pipeline.

Python strings are modelled as `List Char`.  The third-party helpers that the
pipeline composes with (`str.lower`, `str.strip`, `str.lstrip('0')`,
`str.replace`, the `in` substring test, and `unidecode.unidecode`) are
modelled character-faithfully for the character repertoire that occurs in the
dashboard's data (ASCII plus the Spanish accented letters); outside that
repertoire the models act as the identity.
-/

namespace Afluencia

/-- Python strings, modelled as lists of characters. -/
abbrev Str := List Char

/-- Table of the uppercase letters relevant to the data (ASCII `A`–`Z` plus
the accented Spanish capitals), each paired with its lowercase form.  Model of
the character-wise behaviour of Python `str.lower` on this repertoire. -/
def lowerTable : List (Char × Char) :=
  [('A', 'a'), ('B', 'b'), ('C', 'c'), ('D', 'd'), ('E', 'e'), ('F', 'f'),
   ('G', 'g'), ('H', 'h'), ('I', 'i'), ('J', 'j'), ('K', 'k'), ('L', 'l'),
   ('M', 'm'), ('N', 'n'), ('O', 'o'), ('P', 'p'), ('Q', 'q'), ('R', 'r'),
   ('S', 's'), ('T', 't'), ('U', 'u'), ('V', 'v'), ('W', 'w'), ('X', 'x'),
   ('Y', 'y'), ('Z', 'z'),
   ('Á', 'á'), ('É', 'é'), ('Í', 'í'), ('Ó', 'ó'), ('Ú', 'ú'), ('Ü', 'ü'),
   ('Ñ', 'ñ')]

/-- Character-wise model of Python `str.lower`: lowercase via `lowerTable`,
identity on every other character. -/
def pyLowerChar (c : Char) : Char :=
  match lowerTable.find? (fun p => p.1 == c) with
  | some p => p.2
  | none => c

/-- Model of Python `str.lower` on a whole string. -/
def pyLower (s : Str) : Str := s.map pyLowerChar

/-- Transliteration table for `unidecode.unidecode` restricted to the
lowercase accented characters that can reach it in the pipeline (both loaders
apply `unidecode` only after `.lower()`). -/
def uniTable : List (Char × Char) :=
  [('á', 'a'), ('é', 'e'), ('í', 'i'), ('ó', 'o'), ('ú', 'u'), ('ü', 'u'),
   ('ñ', 'n')]

/-- Character-wise model of `unidecode.unidecode`: strip the diacritic via
`uniTable`, identity on every other character. -/
def unidecodeChar (c : Char) : Char :=
  match uniTable.find? (fun p => p.1 == c) with
  | some p => p.2
  | none => c

/-- Model of `unidecode.unidecode` on a whole string. -/
def unidecode (s : Str) : Str := s.map unidecodeChar

/-- Model of Python `str.strip`: drop whitespace from both ends. -/
def pyStrip (s : Str) : Str :=
  ((s.dropWhile Char.isWhitespace).reverse.dropWhile Char.isWhitespace).reverse

/-- Model of the Python substring test `k in s`. -/
def isSubstr (k : Str) : Str → Bool
  | [] => k.isEmpty
  | c :: t => k.isPrefixOf (c :: t) || isSubstr k t

/-- Single left-to-right replacement scan, structurally recursive on a fuel
bound on the remaining length (so that it also evaluates inside the
kernel).  With `s.length ≤ fuel` it performs the full scan. -/
def pyReplaceFuel (k v : Str) : Nat → Str → Str
  | _, [] => []
  | 0, s => s
  | fuel + 1, c :: rest =>
    if k.isPrefixOf (c :: rest) && !k.isEmpty then
      v ++ pyReplaceFuel k v fuel (rest.drop (k.length - 1))
    else
      c :: pyReplaceFuel k v fuel rest

/-- Model of Python `s.replace(k, v)`: replace every occurrence of `k` in `s`
by `v`, scanning left to right without overlapping (faithful for the
non-empty patterns used by `clean_station_name`). -/
def pyReplace (k v s : Str) : Str := pyReplaceFuel k v s.length s

/-- The ordered replacement table of `clean_station_name` (`src/main.py`
lines 18-25).  Python dicts preserve insertion order, so the `for` loop
applies these pairs in this exact order. -/
def replTable : List (Str × Str) :=
  [("terminal aerea".data, "terminal area".data),
   ("lazaro cardenas".data, "l. cardenas".data),
   ("ninos heroes/poder judicial cdmx".data, "ninos heroes".data),
   ("uam azcapotzalco".data, "uam-azcapotzalco".data),
   ("mixhiuca".data, "mixiuhca".data)]

/-- The replacement loop of `clean_station_name`: for each table entry in
order, if the key occurs in the current string, replace all its occurrences
(`src/main.py` lines 26-28). -/
def cleanReplacements (s : Str) : Str :=
  replTable.foldl (fun acc kv => if isSubstr kv.1 acc then pyReplace kv.1 kv.2 acc else acc) s

/-- Model of `clean_station_name` (`src/main.py` lines 15-29):
`unidecode(name.lower().strip())` followed by the ordered replacement loop. -/
def cleanStationName (name : Str) : Str :=
  cleanReplacements (unidecode (pyStrip (pyLower name)))

/-- The ridership loader's line-key normalization
(`src/main.py` line 36): `unidecode(x.lower().strip())`. -/
def lineaCleanSTC (x : Str) : Str :=
  unidecode (pyStrip (pyLower x))

/-- The KML station-geometry loader's line-key derivation
(`src/main.py` line 46): `'linea ' + x.lstrip('0').lower()`. -/
def lineaCleanKML (x : Str) : Str :=
  "linea ".data ++ pyLower (x.dropWhile (fun c => c == '0'))

/-- A calendar date as produced by `pd.to_datetime` on an ISO `YYYY-MM-DD`
field. -/
structure PyDate where
  year : Nat
  month : Nat
  day : Nat
deriving DecidableEq, Repr

/-- Decimal digits of `n`, zero-padded on the left to width `w`; model of the
zero-padded fields of `strftime`. -/
def padDigits (w n : Nat) : Str :=
  let d := Nat.toDigits 10 n
  List.replicate (w - d.length) '0' ++ d

/-- Model of `fecha.strftime('%Y-%m')` (`src/main.py` line 34): the derived
year-month key of a record. -/
def strftimeYM (d : PyDate) : Str :=
  padDigits 4 d.year ++ '-' :: padDigits 2 d.month

/-- Splits a string at every `'-'` (auxiliary accumulator version). -/
def splitDashAux : Str → Str → List Str
  | [], acc => [acc.reverse]
  | c :: t, acc => if c == '-' then acc.reverse :: splitDashAux t [] else splitDashAux t (c :: acc)

/-- Numeric value of a non-empty all-digit string. -/
def digitsToNat? (s : Str) : Option Nat :=
  if s ≠ [] ∧ s.all Char.isDigit then
    some (s.foldl (fun acc c => acc * 10 + (c.toNat - 48)) 0)
  else none

/-- Model of `pd.to_datetime` on an ISO `YYYY-MM-DD` field (the format of the
ridership CSV): parses the three dash-separated numeric components and
rejects out-of-range months and days; `none` models the parse error that
aborts the load. -/
def parseDate (s : Str) : Option PyDate :=
  match splitDashAux s [] with
  | [ys, ms, ds] =>
    match digitsToNat? ys, digitsToNat? ms, digitsToNat? ds with
    | some y, some m, some d =>
      if 1 ≤ m ∧ m ≤ 12 ∧ 1 ≤ d ∧ d ≤ 31 then some ⟨y, m, d⟩ else none
    | _, _, _ => none
  | _ => none

/-- Model of Python string `<=` (lexicographic by code point), the comparison
pandas applies to the `year_month` column in `filter_data`. -/
def pyStrLe : Str → Str → Bool
  | [], _ => true
  | _ :: _, [] => false
  | a :: s, b :: t => if a < b then true else if b < a then false else pyStrLe s t

/-- A raw row of the ridership CSV (`afluenciastc_simple_02_2024.csv`):
columns `fecha`, `estacion`, `linea`, `afluencia`. -/
structure CsvRow where
  fecha : Str
  estacion : Str
  linea : Str
  afluencia : Nat
deriving DecidableEq, Repr

/-- A preprocessed ridership record, with the derived columns added by
`load_and_preprocess_data` (`src/main.py` lines 31-37). -/
structure StcRow where
  fecha : PyDate
  year_month : Str
  estacion_clean : Str
  linea_clean : Str
  afluencia : Nat
deriving DecidableEq, Repr

/-- Row-wise model of `load_and_preprocess_data`: parse the date, derive the
year-month key and the normalized station and line keys. -/
def preprocessRow (r : CsvRow) : Option StcRow :=
  (parseDate r.fecha).map fun d =>
    ⟨d, strftimeYM d, cleanStationName r.estacion, lineaCleanSTC r.linea, r.afluencia⟩

/-- Model of `load_and_preprocess_data` on a whole CSV: fails (as
`pd.to_datetime` does) as soon as one date does not parse. -/
def loadData (rows : List CsvRow) : Option (List StcRow) :=
  rows.mapM preprocessRow

/-- A station-geometry record as produced by `load_and_process_kml_data`
restricted to the columns the merge uses
(`stations_info[['estacion_clean', 'linea_clean', 'lat', 'lon']]`,
`src/main.py` line 104).  KML point geometries always carry coordinates, so
`lat`/`lon` are total here. -/
structure StationInfo where
  estacion_clean : Str
  linea_clean : Str
  lat : ℚ
  lon : ℚ
deriving DecidableEq, Repr

/-- A row of `df_month_estacion_stc` before the merge: ridership aggregated
by (year-month, line, station) (`src/main.py` line 103). -/
structure MonthRow where
  year_month : Str
  linea_clean : Str
  estacion_clean : Str
  afluencia : Nat
deriving DecidableEq, Repr

/-- A row of the joined view after the left merge (`src/main.py` line 104):
the aggregated ridership row with coordinates attached, `none` when the
geometry join missed. -/
structure Row where
  year_month : Str
  linea_clean : Str
  estacion_clean : Str
  afluencia : Nat
  lat : Option ℚ
  lon : Option ℚ
deriving DecidableEq, Repr

/-- The grouping key of `groupby(['year_month', 'linea_clean',
'estacion_clean'])`. -/
def stcKey (r : StcRow) : Str × Str × Str :=
  (r.year_month, r.linea_clean, r.estacion_clean)

/-- Model of `df_stc.groupby(['year_month', 'linea_clean',
'estacion_clean'])['afluencia'].sum().reset_index()` (`src/main.py`
line 103): one output row per distinct key, holding the summed ridership.
(pandas emits the groups sorted by key; the claims under verification do not
depend on the group order, so the order `dedup` yields is used here.) -/
def groupbyMonthStation (df : List StcRow) : List MonthRow :=
  ((df.map stcKey).dedup).map fun k =>
    ⟨k.1, k.2.1, k.2.2,
     ((df.filter (fun r => stcKey r == k)).map (·.afluencia)).sum⟩

/-- One left row's contribution to the left merge on
`['estacion_clean', 'linea_clean']`: the row paired with every matching
geometry row, or with null coordinates when no geometry row matches. -/
def mergeRow (stations : List StationInfo) (r : MonthRow) : List Row :=
  match stations.filter
      (fun s => s.estacion_clean == r.estacion_clean && s.linea_clean == r.linea_clean) with
  | [] => [⟨r.year_month, r.linea_clean, r.estacion_clean, r.afluencia, none, none⟩]
  | ms => ms.map fun s =>
      ⟨r.year_month, r.linea_clean, r.estacion_clean, r.afluencia, some s.lat, some s.lon⟩

/-- Model of the left merge (`src/main.py` line 104): every left row in
order, each expanded by its matching geometry rows. -/
def mergeStations (df : List MonthRow) (stations : List StationInfo) : List Row :=
  df.flatMap (mergeRow stations)

/-- The joined dataset handed to `filter_data` in `main`
(`src/main.py` lines 103-104). -/
def dfMonthEstacion (df : List StcRow) (stations : List StationInfo) : List Row :=
  mergeStations (groupbyMonthStation df) stations

/-- Model of `filter_data` (`src/main.py` lines 49-56): keep the rows whose
normalized line key equals `linea.lower()` and whose year-month key lies
between the `strftime('%Y-%m')` images of the two picked dates. -/
def filterData (df : List Row) (linea : Str) (startDate endDate : PyDate) : List Row :=
  df.filter fun r =>
    r.linea_clean == pyLower linea
      && pyStrLe (strftimeYM startDate) r.year_month
      && pyStrLe r.year_month (strftimeYM endDate)

/-- The distinct normalized station names of a filtered set, in first
occurrence order (the column set of the pivot in `create_line_chart`). -/
def stationsOf (l : List Row) : List Str :=
  (l.map (·.estacion_clean)).dedup

/-- One cell of `filtered_df_stations.pivot(index='year_month',
columns='estacion_clean', values='afluencia')` (`src/main.py` line 61):
the ridership of the first record at the given (year-month, station) pair,
`none` modelling the NaN of an absent combination.  The pivot itself raises
when a pair occurs twice; `pivotOk` states that precondition. -/
def pivotCell (l : List Row) (ym s : Str) : Option Nat :=
  (l.find? (fun r => r.year_month == ym && r.estacion_clean == s)).map (·.afluencia)

/-- The precondition of the pivot step: no two records share the same
(year-month, station) pair; pandas raises a duplicate-entries error
otherwise. -/
abbrev pivotOk (l : List Row) : Prop :=
  (l.map fun r => (r.year_month, r.estacion_clean)).Nodup

/-- The chart's synthetic `Total` column at one year-month bucket
(`pivoted_df.sum(axis=1)`, `src/main.py` line 63): the row-wise sum of the
full pivot over all station columns, NaN cells skipped. -/
def chartTotal (l : List Row) (ym : Str) : Nat :=
  ((stationsOf l).map fun s => (pivotCell l ym s).getD 0).sum

/-- Insertion (ascending by the pandas string order) used to model the sorted
row index of the pivot. -/
def insertYm (x : Str) : List Str → List Str
  | [] => [x]
  | y :: t => if pyStrLe x y then x :: y :: t else y :: insertYm x t

/-- The pivot's row index: the distinct year-month keys in ascending order. -/
def ymIndex (l : List Row) : List Str :=
  ((l.map (·.year_month)).dedup).foldr insertYm []

/-- The `Total` series of the chart, one value per year-month bucket. -/
def totalSeries (l : List Row) : List Nat :=
  (ymIndex l).map (chartTotal l)

/-- Total ridership of one station over the filtered set
(`groupby('estacion_clean')['afluencia'].sum()`). -/
def stationTotalSum (l : List Row) (s : Str) : Nat :=
  ((l.filter (fun r => r.estacion_clean == s)).map (·.afluencia)).sum

/-- Stable insertion, descending on the numeric component; model of
`sort_values(ascending=False)` (ties keep their incoming order, which the
source leaves unspecified). -/
def insertDescPair (x : Str × Nat) : List (Str × Nat) → List (Str × Nat)
  | [] => [x]
  | y :: t => if y.2 < x.2 then x :: y :: t else y :: insertDescPair x t

/-- Stable descending sort by the numeric component. -/
def sortDescPairs (l : List (Str × Nat)) : List (Str × Nat) :=
  l.foldr insertDescPair []

/-- The five stations with the highest total ridership
(`total_afluencia_per_station.head(5)`, `src/main.py` lines 59-60). -/
def top5 (l : List Row) : List Str :=
  ((sortDescPairs ((stationsOf l).map fun s => (s, stationTotalSum l s))).take 5).map (·.1)

/-- One row of `stations_aggregate` (`src/main.py` lines 67-71) before the
`size` column: summed ridership and first non-null coordinates per station
(pandas `groupby(...).agg('first')` skips nulls). -/
def aggRow (l : List Row) (s : Str) : Str × Nat × Option ℚ × Option ℚ :=
  (s, stationTotalSum l s,
   ((l.filter (fun r => r.estacion_clean == s)).filterMap (·.lat)).head?,
   ((l.filter (fun r => r.estacion_clean == s)).filterMap (·.lon)).head?)

/-- Model of the `stations_aggregate` frame: one row per distinct station of
the filtered set (null coordinates included). -/
def stationsAggregate (l : List Row) : List (Str × Nat × Option ℚ × Option ℚ) :=
  (stationsOf l).map (aggRow l)

/-- The divisor of the size formula: `stations_aggregate['afluencia'].max()`
(`src/main.py` line 72). -/
def maxAfl (l : List Row) : Nat :=
  ((stationsAggregate l).map (fun a => a.2.1)).foldr Nat.max 0

/-- A sized row of `stations_aggregate` after
`stations_aggregate['size'] = ... / max * 1000`. -/
structure AggRow where
  estacion_clean : Str
  afluencia : Nat
  lat : Option ℚ
  lon : Option ℚ
  size : ℚ
deriving DecidableEq, Repr

/-- Model of the sized `stations_aggregate` frame (`src/main.py` line 72):
every station receives `afluencia / max * 1000`, coordinates or not. -/
def stationsAggregateSized (l : List Row) : List AggRow :=
  (stationsAggregate l).map fun a =>
    ⟨a.1, a.2.1, a.2.2.1, a.2.2.2, (a.2.1 : ℚ) / (maxAfl l : ℚ) * 1000⟩

/-- The ranked table of `display_map_and_table` (`src/main.py` line 82):
station/ridership pairs of the aggregate, sorted descending by ridership. -/
def tableRanking (l : List Row) : List (Str × Nat) :=
  sortDescPairs ((stationsAggregateSized l).map fun a => (a.estacion_clean, a.afluencia))

/-- Both ends of the string are free of whitespace (vacuously true for the
empty string); the shape `str.strip` guarantees of its output. -/
def goodEdges (s : Str) : Bool :=
  s.head?.all (fun c => !c.isWhitespace) && s.getLast?.all (fun c => !c.isWhitespace)

/-- The string contains a character that `unidecode` would transliterate. -/
def hasDiacritic (s : Str) : Bool :=
  s.any fun c => (uniTable.find? (fun p => p.1 == c)).isSome

/-- The string starts or ends with whitespace. -/
def hasEdgeWS (s : Str) : Bool :=
  s.head?.any Char.isWhitespace || s.getLast?.any Char.isWhitespace

/-! Concrete data used by the witness and counterexample theorems. -/

/-- The ridership rows of the spec's end-to-end example. -/
def csvC7 : List CsvRow :=
  [⟨"2024-01-01".data, "Station A".data, "Line 1".data, 100⟩,
   ⟨"2024-01-01".data, "Station B".data, "Line 1".data, 50⟩,
   ⟨"2024-02-01".data, "Station A".data, "Line 1".data, 200⟩]

/-- Matching geometry for stations A and B on line 1 (already in normalized
join-key form, as the example stipulates a matching join). -/
def stationsC7 : List StationInfo :=
  [⟨"station a".data, "line 1".data, 19, -99⟩,
   ⟨"station b".data, "line 1".data, 20, -98⟩]

/-- The example's filtered dataset: line `line 1` over January-February
2024. -/
def filteredC7 : List Row :=
  filterData (dfMonthEstacion ((loadData csvC7).getD []) stationsC7)
    "line 1".data ⟨2024, 1, 1⟩ ⟨2024, 2, 29⟩

/-- A one-row aggregated ridership table (for the pivot-safety
counterexample). -/
def stcC9dup : List StcRow :=
  [⟨⟨2024, 1, 1⟩, "2024-01".data, "pino suarez".data, "linea 1".data, 100⟩]

/-- A geometry table with a duplicated (station, line) key: two placemarks
for the same station of the same line. -/
def geoC9dup : List StationInfo :=
  [⟨"pino suarez".data, "linea 1".data, 19, -99⟩,
   ⟨"pino suarez".data, "linea 1".data, 20, -98⟩]

/-- The pipeline output on `stcC9dup`/`geoC9dup`: the left merge duplicates
the single aggregated row. -/
def filteredC9dup : List Row :=
  filterData (dfMonthEstacion stcC9dup geoC9dup) "linea 1".data ⟨2024, 1, 1⟩ ⟨2024, 12, 31⟩

/-- A geometry table with distinct (station, line) keys. -/
def geoC9ok : List StationInfo :=
  [⟨"pino suarez".data, "linea 1".data, 19, -99⟩]

/-- A filtered set containing a station whose geometry join missed (`b`, with
null coordinates) holding the maximal ridership. -/
def rowsC4null : List Row :=
  [⟨"2024-01".data, "linea 1".data, "a".data, 100, some 19, some (-99)⟩,
   ⟨"2024-01".data, "linea 1".data, "b".data, 400, none, none⟩]

/-- A filtered set with the same stations and ridership as `rowsC4null` but
with coordinates attached to both stations. -/
def rowsC4geo : List Row :=
  [⟨"2024-01".data, "linea 1".data, "a".data, 100, some 19, some (-99)⟩,
   ⟨"2024-01".data, "linea 1".data, "b".data, 400, some 20, some (-98)⟩]

/-- A small filtered set for the map-sizing witness: station `a` holds the
maximal ridership. -/
def rowsC2w : List Row :=
  [⟨"2024-01".data, "linea 1".data, "a".data, 5, none, none⟩,
   ⟨"2024-01".data, "linea 1".data, "b".data, 2, some 1, some 2⟩]

/-- The aggregate row of station `a` in `rowsC2w`. -/
def aggC2 : AggRow :=
  (stationsAggregateSized rowsC2w).headD ⟨[], 0, none, none, 0⟩

/-- A two-row joined dataset for the filter witness. -/
def dfC3w : List Row :=
  [⟨"2024-01".data, "linea 1".data, "a".data, 7, none, none⟩,
   ⟨"2024-03".data, "linea 1".data, "b".data, 9, none, none⟩]

/-- A joined dataset whose line key is the loader-normalized image of
`Línea 1` (for the diacritic-target witness). -/
def dfC10w : List Row :=
  [⟨"2024-01".data, lineaCleanSTC "Línea 1".data, "a".data, 7, none, none⟩]

/-- A filtered set with two buckets and two stations for the chart-total
witness. -/
def rowsC1w : List Row :=
  [⟨"2024-01".data, "linea 1".data, "a".data, 100, none, none⟩,
   ⟨"2024-01".data, "linea 1".data, "b".data, 50, none, none⟩,
   ⟨"2024-02".data, "linea 1".data, "a".data, 200, none, none⟩]

/-! Helper lemmas: character-level facts about the lowercasing and
transliteration models. -/

theorem find?_table_mem {tbl : List (Char × Char)} {c : Char} {p : Char × Char}
    (h : tbl.find? (fun q => q.1 == c) = some p) : p ∈ tbl ∧ p.1 = c := by
  refine ⟨List.mem_of_find?_eq_some h, ?_⟩
  simpa using List.find?_some h

theorem pyLowerChar_of_find? {c : Char} {p : Char × Char}
    (h : lowerTable.find? (fun q => q.1 == c) = some p) : pyLowerChar c = p.2 := by
  simp [pyLowerChar, h]

theorem pyLowerChar_of_none {c : Char}
    (h : lowerTable.find? (fun q => q.1 == c) = none) : pyLowerChar c = c := by
  simp [pyLowerChar, h]

theorem unidecodeChar_of_find? {c : Char} {p : Char × Char}
    (h : uniTable.find? (fun q => q.1 == c) = some p) : unidecodeChar c = p.2 := by
  simp [unidecodeChar, h]

theorem unidecodeChar_of_none {c : Char}
    (h : uniTable.find? (fun q => q.1 == c) = none) : unidecodeChar c = c := by
  simp [unidecodeChar, h]

theorem pyLowerChar_fix_uni_lower (c : Char) :
    pyLowerChar (unidecodeChar (pyLowerChar c)) = unidecodeChar (pyLowerChar c) := by
  cases h : lowerTable.find? (fun q => q.1 == c) with
  | some p =>
    obtain ⟨hp, -⟩ := find?_table_mem h
    rw [pyLowerChar_of_find? h]
    exact (show ∀ q ∈ lowerTable, pyLowerChar (unidecodeChar q.2) = unidecodeChar q.2 by decide) p hp
  | none =>
    rw [pyLowerChar_of_none h]
    cases h2 : uniTable.find? (fun q => q.1 == c) with
    | some p =>
      obtain ⟨hp, -⟩ := find?_table_mem h2
      rw [unidecodeChar_of_find? h2]
      exact (show ∀ q ∈ uniTable, pyLowerChar q.2 = q.2 by decide) p hp
    | none =>
      rw [unidecodeChar_of_none h2, pyLowerChar_of_none h]

theorem unidecodeChar_idem (c : Char) :
    unidecodeChar (unidecodeChar c) = unidecodeChar c := by
  cases h : uniTable.find? (fun q => q.1 == c) with
  | some p =>
    obtain ⟨hp, -⟩ := find?_table_mem h
    rw [unidecodeChar_of_find? h]
    exact (show ∀ q ∈ uniTable, unidecodeChar q.2 = q.2 by decide) p hp
  | none =>
    rw [unidecodeChar_of_none h, unidecodeChar_of_none h]

theorem unidecodeChar_not_key (c : Char) :
    uniTable.find? (fun q => q.1 == unidecodeChar c) = none := by
  cases h : uniTable.find? (fun q => q.1 == c) with
  | some p =>
    obtain ⟨hp, -⟩ := find?_table_mem h
    rw [unidecodeChar_of_find? h]
    exact (show ∀ q ∈ uniTable, uniTable.find? (fun z => z.1 == q.2) = none by decide) p hp
  | none =>
    rw [unidecodeChar_of_none h]
    exact h

theorem unidecodeChar_ws (c : Char) :
    (unidecodeChar c).isWhitespace = c.isWhitespace := by
  cases h : uniTable.find? (fun q => q.1 == c) with
  | some p =>
    obtain ⟨hp, hc⟩ := find?_table_mem h
    rw [unidecodeChar_of_find? h, ← hc]
    exact (show ∀ q ∈ uniTable, q.2.isWhitespace = q.1.isWhitespace by decide) p hp
  | none =>
    rw [unidecodeChar_of_none h]

/-! Helper lemmas: string-level facts about strip, map and the replacement
scan. -/

theorem map_fix {f : Char → Char} : ∀ {l : Str}, (∀ c ∈ l, f c = c) → l.map f = l
  | [], _ => rfl
  | c :: t, h => by
    simp only [List.map_cons, List.cons.injEq]
    exact ⟨h c (List.mem_cons_self c t), map_fix fun d hd => h d (List.mem_cons_of_mem c hd)⟩

theorem mem_pyStrip {c : Char} {s : Str} (h : c ∈ pyStrip s) : c ∈ s := by
  unfold pyStrip at h
  rw [List.mem_reverse] at h
  have h2 := List.Sublist.mem h (List.dropWhile_sublist _)
  rw [List.mem_reverse] at h2
  exact List.Sublist.mem h2 (List.dropWhile_sublist _)

theorem head?_dropWhile_not {p : Char → Bool} :
    ∀ {l : Str} {c : Char}, (l.dropWhile p).head? = some c → p c = false := by
  intro l
  induction l with
  | nil => intro c h; simp at h
  | cons a t ih =>
    intro c h
    rw [List.dropWhile_cons] at h
    split at h
    · exact ih h
    · cases h
      exact Bool.eq_false_iff.mpr ‹¬_›

theorem dropWhile_eq_self_of_head {p : Char → Bool} {l : Str}
    (h : ∀ c, l.head? = some c → p c = false) : l.dropWhile p = l := by
  cases l with
  | nil => rfl
  | cons a t =>
    rw [List.dropWhile_cons, if_neg]
    simp [h a rfl]

theorem goodEdges_head {s : Str} {c : Char} (h : goodEdges s = true)
    (hc : s.head? = some c) : c.isWhitespace = false := by
  unfold goodEdges at h
  rw [Bool.and_eq_true] at h
  have := h.1
  rw [hc, Option.all_some] at this
  simpa using this

theorem goodEdges_last {s : Str} {c : Char} (h : goodEdges s = true)
    (hc : s.getLast? = some c) : c.isWhitespace = false := by
  unfold goodEdges at h
  rw [Bool.and_eq_true] at h
  have := h.2
  rw [hc, Option.all_some] at this
  simpa using this

theorem goodEdges_of_parts {s : Str}
    (h1 : ∀ c, s.head? = some c → c.isWhitespace = false)
    (h2 : ∀ c, s.getLast? = some c → c.isWhitespace = false) : goodEdges s = true := by
  unfold goodEdges
  rw [Bool.and_eq_true]
  constructor
  · cases hc : s.head? with
    | none => rfl
    | some c => rw [Option.all_some]; simp [h1 c hc]
  · cases hc : s.getLast? with
    | none => rfl
    | some c => rw [Option.all_some]; simp [h2 c hc]

theorem getLast?_suffix_eq {l m : Str} {c : Char} (h : m <:+ l)
    (hc : m.getLast? = some c) : l.getLast? = some c := by
  obtain ⟨t, rfl⟩ := h
  rw [List.getLast?_append, hc]
  rfl

theorem goodEdges_pyStrip (s : Str) : goodEdges (pyStrip s) = true := by
  apply goodEdges_of_parts
  · intro c hc
    unfold pyStrip at hc
    rw [List.head?_reverse] at hc
    have h2 := getLast?_suffix_eq (List.dropWhile_suffix _) hc
    rw [List.getLast?_reverse] at h2
    exact head?_dropWhile_not h2
  · intro c hc
    unfold pyStrip at hc
    rw [List.getLast?_reverse] at hc
    exact head?_dropWhile_not hc

theorem pyStrip_eq_self {s : Str} (h : goodEdges s = true) : pyStrip s = s := by
  unfold pyStrip
  rw [dropWhile_eq_self_of_head (fun c hc => goodEdges_head h hc)]
  rw [dropWhile_eq_self_of_head, List.reverse_reverse]
  intro c hc
  rw [List.head?_reverse] at hc
  exact goodEdges_last h hc

theorem goodEdges_unidecode {s : Str} (h : goodEdges s = true) :
    goodEdges (unidecode s) = true := by
  apply goodEdges_of_parts
  · intro c hc
    unfold unidecode at hc
    rw [List.head?_map] at hc
    cases hs : s.head? with
    | none => rw [hs] at hc; cases hc
    | some d =>
      rw [hs] at hc
      cases hc
      rw [unidecodeChar_ws]
      exact goodEdges_head h hs
  · intro c hc
    unfold unidecode at hc
    rw [List.getLast?_map] at hc
    cases hs : s.getLast? with
    | none => rw [hs] at hc; cases hc
    | some d =>
      rw [hs] at hc
      cases hc
      rw [unidecodeChar_ws]
      exact goodEdges_last h hs

theorem pyReplaceFuel_nil {k v : Str} (hv : v ≠ []) {fuel : Nat} {s : Str}
    (h : pyReplaceFuel k v fuel s = []) : s = [] := by
  cases s with
  | nil => rfl
  | cons c t =>
    cases fuel with
    | zero => exact h
    | succ n =>
      simp only [pyReplaceFuel] at h
      split at h
      · exact absurd (List.append_eq_nil.mp h).1 hv
      · simp at h

theorem pyReplaceFuel_mem {k v : Str} :
    ∀ (fuel : Nat) (s : Str) {c : Char}, c ∈ pyReplaceFuel k v fuel s → c ∈ s ∨ c ∈ v := by
  intro fuel
  induction fuel with
  | zero =>
    intro s c h
    cases s with
    | nil => simp [pyReplaceFuel] at h
    | cons a t => exact Or.inl h
  | succ n ih =>
    intro s c h
    cases s with
    | nil => simp [pyReplaceFuel] at h
    | cons a t =>
      simp only [pyReplaceFuel] at h
      split at h
      · rw [List.mem_append] at h
        rcases h with h | h
        · exact Or.inr h
        · rcases ih _ h with h2 | h2
          · exact Or.inl (List.mem_cons_of_mem a (List.Sublist.mem h2 (List.drop_sublist _ _)))
          · exact Or.inr h2
      · rw [List.mem_cons] at h
        rcases h with h | h
        · exact Or.inl (h ▸ List.mem_cons_self a t)
        · rcases ih t h with h2 | h2
          · exact Or.inl (List.mem_cons_of_mem a h2)
          · exact Or.inr h2

theorem pyReplaceFuel_head {k v : Str} (hv : v ≠ []) {fuel : Nat} {s : Str} {c : Char}
    (h : (pyReplaceFuel k v fuel s).head? = some c) :
    s.head? = some c ∨ v.head? = some c := by
  cases s with
  | nil =>
    cases fuel with
    | zero => simp [pyReplaceFuel] at h
    | succ n => simp [pyReplaceFuel] at h
  | cons a t =>
    cases fuel with
    | zero => exact Or.inl h
    | succ n =>
      simp only [pyReplaceFuel] at h
      split at h
      · rw [List.head?_append] at h
        cases v with
        | nil => exact absurd rfl hv
        | cons d u =>
          simp only [List.head?_cons, Option.or] at h
          exact Or.inr h
      · exact Or.inl h

theorem pyReplaceFuel_last {k v : Str} (hv : v ≠ []) :
    ∀ (fuel : Nat) (s : Str) {c : Char}, (pyReplaceFuel k v fuel s).getLast? = some c →
      s.getLast? = some c ∨ v.getLast? = some c := by
  intro fuel
  induction fuel with
  | zero =>
    intro s c h
    cases s with
    | nil => simp [pyReplaceFuel] at h
    | cons a t => exact Or.inl h
  | succ n ih =>
    intro s c h
    cases s with
    | nil => simp [pyReplaceFuel] at h
    | cons a t =>
      simp only [pyReplaceFuel] at h
      split at h
      · rw [List.getLast?_append] at h
        cases hrec : (pyReplaceFuel k v n (t.drop (k.length - 1))).getLast? with
        | none =>
          rw [hrec, Option.none_or] at h
          exact Or.inr h
        | some d =>
          rw [hrec] at h
          cases h
          rcases ih _ hrec with h2 | h2
          · exact Or.inl (getLast?_suffix_eq ((List.drop_suffix _ _).trans ⟨[a], rfl⟩) h2)
          · exact Or.inr h2
      · have hsplit : (a :: pyReplaceFuel k v n t).getLast? =
            (pyReplaceFuel k v n t).getLast?.or (some a) := by
          rw [show a :: pyReplaceFuel k v n t = [a] ++ pyReplaceFuel k v n t from rfl]
          rw [List.getLast?_append]
          rfl
        rw [hsplit] at h
        cases hrec : (pyReplaceFuel k v n t).getLast? with
        | none =>
          rw [hrec, Option.none_or] at h
          cases h
          have ht : t = [] := by
            have := pyReplaceFuel_nil hv (List.getLast?_eq_none_iff.mp hrec)
            exact this
          subst ht
          exact Or.inl rfl
        | some d =>
          rw [hrec] at h
          cases h
          rcases ih t hrec with h2 | h2
          · exact Or.inl (getLast?_suffix_eq ⟨[a], rfl⟩ h2)
          · exact Or.inr h2

theorem goodEdges_pyReplace {k v s : Str} (hv : v ≠ []) (hgv : goodEdges v = true)
    (hgs : goodEdges s = true) : goodEdges (pyReplace k v s) = true := by
  apply goodEdges_of_parts
  · intro c hc
    rcases pyReplaceFuel_head hv hc with h | h
    · exact goodEdges_head hgs h
    · exact goodEdges_head hgv h
  · intro c hc
    rcases pyReplaceFuel_last hv _ _ hc with h | h
    · exact goodEdges_last hgs h
    · exact goodEdges_last hgv h

theorem foldl_repl_mem :
    ∀ (tbl : List (Str × Str)) (s : Str) {c : Char},
      c ∈ tbl.foldl (fun acc kv => if isSubstr kv.1 acc then pyReplace kv.1 kv.2 acc else acc) s →
      c ∈ s ∨ ∃ kv ∈ tbl, c ∈ kv.2 := by
  intro tbl
  induction tbl with
  | nil => intro s c h; exact Or.inl h
  | cons kv tl ih =>
    intro s c h
    rw [List.foldl_cons] at h
    rcases ih _ h with h2 | ⟨kv2, hkv2, hc2⟩
    · revert h2
      split
      · intro h2
        rcases pyReplaceFuel_mem _ _ h2 with h3 | h3
        · exact Or.inl h3
        · exact Or.inr ⟨kv, List.mem_cons_self kv tl, h3⟩
      · intro h2
        exact Or.inl h2
    · exact Or.inr ⟨kv2, List.mem_cons_of_mem _ hkv2, hc2⟩

theorem foldl_repl_edges :
    ∀ (tbl : List (Str × Str)) (s : Str),
      (∀ kv ∈ tbl, kv.2 ≠ [] ∧ goodEdges kv.2 = true) → goodEdges s = true →
      goodEdges
        (tbl.foldl (fun acc kv => if isSubstr kv.1 acc then pyReplace kv.1 kv.2 acc else acc) s)
        = true := by
  intro tbl
  induction tbl with
  | nil => intro s _ hs; exact hs
  | cons kv tl ih =>
    intro s htbl hs
    rw [List.foldl_cons]
    apply ih _ (fun q hq => htbl q (List.mem_cons_of_mem _ hq))
    split
    · exact goodEdges_pyReplace (htbl kv (List.mem_cons_self kv tl)).1
        (htbl kv (List.mem_cons_self kv tl)).2 hs
    · exact hs

theorem foldl_repl_id :
    ∀ (tbl : List (Str × Str)) (s : Str),
      (∀ kv ∈ tbl, isSubstr kv.1 s = false) →
      tbl.foldl (fun acc kv => if isSubstr kv.1 acc then pyReplace kv.1 kv.2 acc else acc) s
        = s := by
  intro tbl
  induction tbl with
  | nil => intro s _; rfl
  | cons kv tl ih =>
    intro s htbl
    rw [List.foldl_cons, if_neg, ih _ (fun q hq => htbl q (List.mem_cons_of_mem _ hq))]
    rw [htbl kv (List.mem_cons_self kv tl)]
    simp

theorem pyLower_clean_fix (x : Str) :
    pyLower (cleanStationName x) = cleanStationName x := by
  apply map_fix
  intro c hc
  rcases foldl_repl_mem replTable (unidecode (pyStrip (pyLower x))) hc with hw | ⟨kv, hkv, hcv⟩
  · obtain ⟨b, hb, rfl⟩ := List.mem_map.mp hw
    obtain ⟨a, -, rfl⟩ := List.mem_map.mp (mem_pyStrip hb)
    exact pyLowerChar_fix_uni_lower a
  · exact ((show ∀ kv ∈ replTable, ∀ c ∈ kv.2, pyLowerChar c = c ∧ unidecodeChar c = c
      by decide) kv hkv c hcv).1

theorem unidecode_clean_fix (x : Str) :
    unidecode (cleanStationName x) = cleanStationName x := by
  apply map_fix
  intro c hc
  rcases foldl_repl_mem replTable (unidecode (pyStrip (pyLower x))) hc with hw | ⟨kv, hkv, hcv⟩
  · obtain ⟨b, -, rfl⟩ := List.mem_map.mp hw
    exact unidecodeChar_idem b
  · exact ((show ∀ kv ∈ replTable, ∀ c ∈ kv.2, pyLowerChar c = c ∧ unidecodeChar c = c
      by decide) kv hkv c hcv).2

theorem goodEdges_clean (x : Str) : goodEdges (cleanStationName x) = true :=
  foldl_repl_edges replTable _ (by decide) (goodEdges_unidecode (goodEdges_pyStrip _))

theorem pyStrip_clean_fix (x : Str) :
    pyStrip (cleanStationName x) = cleanStationName x :=
  pyStrip_eq_self (goodEdges_clean x)

/-! Claim C6: idempotence of the name normalizer. -/

/-- C6 (counterexample): the name normalizer is not idempotent.  On
`ninos heroes/poder judicial cdmx/poder judicial cdmx` the third replacement
rebuilds its own key, so a second pass shortens the string again. -/
theorem clean_station_name_not_idem :
    cleanStationName (cleanStationName
        "ninos heroes/poder judicial cdmx/poder judicial cdmx".data)
      ≠ cleanStationName "ninos heroes/poder judicial cdmx/poder judicial cdmx".data := by
  decide

/-- C6 (amended): the name normalizer is idempotent on every input whose
normalized form contains no replacement-table key as a substring (the
counterexample shows the unconditional claim fails exactly when a replacement
reintroduces a key). -/
theorem clean_station_name_idem_of_keyfree (x : Str)
    (h : replTable.all (fun kv => !isSubstr kv.1 (cleanStationName x)) = true) :
    cleanStationName (cleanStationName x) = cleanStationName x := by
  rw [show cleanStationName (cleanStationName x)
      = cleanReplacements (unidecode (pyStrip (pyLower (cleanStationName x)))) from rfl]
  rw [pyLower_clean_fix, pyStrip_clean_fix, unidecode_clean_fix]
  apply foldl_repl_id
  intro kv hkv
  have h2 := List.all_eq_true.mp h kv hkv
  simpa using h2

/-- C6 (witness): the amended idempotence at the concrete station name
`tacubaya`, whose normalized form contains no replacement key. -/
theorem clean_station_name_idem_witness :
    cleanStationName (cleanStationName "tacubaya".data)
      = cleanStationName "tacubaya".data :=
  clean_station_name_idem_of_keyfree "tacubaya".data (by decide)

/-! Transitivity of the string comparison used by the filter. -/

theorem pyStrLe_trans :
    ∀ (a b c : Str), pyStrLe a b = true → pyStrLe b c = true → pyStrLe a c = true := by
  intro a
  induction a with
  | nil => intro b c _ _; rfl
  | cons x s ih =>
    intro b c h1 h2
    cases b with
    | nil => simp [pyStrLe] at h1
    | cons y t =>
      cases c with
      | nil => simp [pyStrLe] at h2
      | cons z u =>
        simp only [pyStrLe] at h1 h2 ⊢
        by_cases hxy : x < y
        · by_cases hyz : y < z
          · rw [if_pos (lt_trans hxy hyz)]
          · by_cases hzy : z < y
            · rw [if_neg hyz, if_pos hzy] at h2; cases h2
            · have hyz2 : y = z := le_antisymm (le_of_not_lt hzy) (le_of_not_lt hyz)
              rw [if_pos (hyz2 ▸ hxy)]
        · by_cases hyx : y < x
          · rw [if_neg hxy, if_pos hyx] at h1; cases h1
          · have hxy2 : x = y := le_antisymm (le_of_not_lt hyx) (le_of_not_lt hxy)
            rw [if_neg hxy, if_neg hyx] at h1
            subst hxy2
            by_cases hyz : x < z
            · rw [if_pos hyz]
            · by_cases hzy : z < x
              · rw [if_neg hyz, if_pos hzy] at h2; cases h2
              · rw [if_neg hyz, if_neg hzy] at h2
                rw [if_neg hyz, if_neg hzy]
                exact ih t u h1 h2

/-! Claim C3: the filter is exactly the line/month-range subset. -/

/-- C3: for a normalized target line key, `filter_data` returns exactly the
records whose line key equals the target and whose year-month key lies in the
closed range (lexicographic string comparison); and whenever the start month
exceeds the end month the result is empty. -/
theorem filter_data_spec (df : List Row) (t : Str) (sd ed : PyDate)
    (ht : pyLower t = t) :
    (∀ r, r ∈ filterData df t sd ed ↔
      r ∈ df ∧ r.linea_clean = t ∧
        pyStrLe (strftimeYM sd) r.year_month = true ∧
        pyStrLe r.year_month (strftimeYM ed) = true)
    ∧ (pyStrLe (strftimeYM sd) (strftimeYM ed) = false →
        filterData df t sd ed = []) := by
  constructor
  · intro r
    rw [filterData, List.mem_filter, ht]
    simp [Bool.and_eq_true, and_assoc]
  · intro hlt
    rw [filterData, List.filter_eq_nil_iff]
    intro r hr hpred
    rw [Bool.and_eq_true, Bool.and_eq_true] at hpred
    have h3 := pyStrLe_trans _ _ _ hpred.1.2 hpred.2
    rw [h3] at hlt
    cases hlt

/-- C3 (witness): filtering the concrete dataset `dfC3w` with a start month
(March 2024) past the end month (January 2024) yields the empty result. -/
theorem filter_data_spec_witness :
    filterData dfC3w "linea 1".data ⟨2024, 3, 1⟩ ⟨2024, 1, 31⟩ = [] :=
  (filter_data_spec dfC3w "linea 1".data ⟨2024, 3, 1⟩ ⟨2024, 1, 31⟩ (by decide)).2
    (by decide)

/-! Claim C5: the two loaders' line-key normalizations. -/

/-- C5 (counterexample): the two loaders derive line keys with two different
functions, and on a zero-padded raw identifier they disagree: the geometry
loader maps `01` to `linea 1` while the ridership loader maps the
corresponding raw name `Línea 01` to `linea 01`. -/
theorem linea_key_normalizations_differ :
    lineaCleanKML "01".data = "linea 1".data ∧
    lineaCleanSTC "Línea 01".data = "linea 01".data ∧
    lineaCleanKML "01".data ≠ lineaCleanSTC "Línea 01".data := by
  decide

/-- C5 (amended): the two normalizations are different functions (see the
counterexample), but they do agree on the well-formed identifiers: for every
non-empty raw identifier with no leading zeros whose lowercase form is free
of surrounding whitespace and diacritics, the geometry loader's key equals
the ridership loader's key of the corresponding raw name (the word `Línea`,
a space, and the identifier). -/
theorem linea_key_agree (x : Str) (h0 : x ≠ [])
    (h1 : x.dropWhile (fun c => c == '0') = x)
    (h2 : pyStrip (pyLower x) = pyLower x)
    (h3 : unidecode (pyLower x) = pyLower x) :
    lineaCleanKML x = lineaCleanSTC ("Línea ".data ++ x) := by
  rw [lineaCleanKML, lineaCleanSTC, h1]
  have hmap : pyLower ("Línea ".data ++ x) = "línea ".data ++ pyLower x := by
    rw [pyLower, List.map_append]
    rw [show List.map pyLowerChar "Línea ".data = "línea ".data from by decide]
    rfl
  rw [hmap]
  have hxne : pyLower x ≠ [] := by
    intro hnil
    rw [pyLower, List.map_eq_nil_iff] at hnil
    exact h0 hnil
  have hgx : goodEdges (pyLower x) = true := by
    have h4 := goodEdges_pyStrip (pyLower x)
    rw [h2] at h4
    exact h4
  have hge : goodEdges ("línea ".data ++ pyLower x) = true := by
    apply goodEdges_of_parts
    · intro c hc
      rw [List.head?_append] at hc
      cases hc
      decide
    · intro c hc
      rw [List.getLast?_append] at hc
      cases hl : (pyLower x).getLast? with
      | none => exact absurd (List.getLast?_eq_none_iff.mp hl) hxne
      | some d =>
        rw [hl] at hc
        cases hc
        exact goodEdges_last hgx hl
  rw [pyStrip_eq_self hge]
  rw [unidecode, List.map_append]
  rw [show List.map unidecodeChar "línea ".data = "linea ".data from by decide]
  rw [show List.map unidecodeChar (pyLower x) = pyLower x from h3]

/-- C5 (witness): the amended agreement at the concrete identifier `7`. -/
theorem linea_key_agree_witness :
    lineaCleanKML "7".data = lineaCleanSTC ("Línea ".data ++ "7".data) :=
  linea_key_agree "7".data (by decide) (by decide) (by decide) (by decide)

/-! Claim C8: the derived year-month key is the date truncated to
(year, month). -/

/-- C8: for records whose dates parse, the loader's derived year-month key is
the `strftime` image of the date truncated to (year, month) and is therefore
independent of the day-of-month. -/
theorem year_month_day_independent (r1 r2 : CsvRow) (d1 d2 : PyDate) (s1 s2 : StcRow)
    (h1 : parseDate r1.fecha = some d1) (h2 : parseDate r2.fecha = some d2)
    (hp1 : preprocessRow r1 = some s1) (hp2 : preprocessRow r2 = some s2)
    (hy : d1.year = d2.year) (hm : d1.month = d2.month) :
    s1.year_month = strftimeYM ⟨d1.year, d1.month, 1⟩ ∧ s1.year_month = s2.year_month := by
  rw [preprocessRow, h1, Option.map_some'] at hp1
  rw [preprocessRow, h2, Option.map_some'] at hp2
  injection hp1 with hp1
  injection hp2 with hp2
  subst hp1
  subst hp2
  constructor
  · rfl
  · show strftimeYM d1 = strftimeYM d2
    rw [strftimeYM, strftimeYM, hy, hm]

/-- C8 (witness): two concrete rows of January 2024 with different days (the
15th and the 3rd) receive the same year-month key `2024-01`. -/
theorem year_month_day_independent_witness :
    (⟨⟨2024, 1, 15⟩, "2024-01".data, "a".data, "b".data, 1⟩ : StcRow).year_month
        = strftimeYM ⟨2024, 1, 1⟩ ∧
    (⟨⟨2024, 1, 15⟩, "2024-01".data, "a".data, "b".data, 1⟩ : StcRow).year_month
        = (⟨⟨2024, 1, 3⟩, "2024-01".data, "a".data, "b".data, 2⟩ : StcRow).year_month :=
  year_month_day_independent
    ⟨"2024-01-15".data, "a".data, "b".data, 1⟩
    ⟨"2024-01-03".data, "a".data, "b".data, 2⟩
    ⟨2024, 1, 15⟩ ⟨2024, 1, 3⟩
    ⟨⟨2024, 1, 15⟩, "2024-01".data, "a".data, "b".data, 1⟩
    ⟨⟨2024, 1, 3⟩, "2024-01".data, "a".data, "b".data, 2⟩
    (by decide) (by decide) (by decide) (by decide) rfl rfl

/-! Claim C10: the filter only lowercases its target. -/

/-- C10: the filter lowercases its target but neither strips whitespace nor
removes diacritics, so on a loader-normalized dataset any target whose
lowercase form still carries a diacritic or edge whitespace selects nothing. -/
theorem filter_unnormalized_target_empty (df : List Row) (t : Str) (sd ed : PyDate)
    (hdf : ∀ r ∈ df, ∃ raw, r.linea_clean = lineaCleanSTC raw)
    (ht : (hasDiacritic (pyLower t) || hasEdgeWS (pyLower t)) = true) :
    filterData df t sd ed = [] := by
  rw [filterData, List.filter_eq_nil_iff]
  intro r hr hpred
  obtain ⟨raw, hraw⟩ := hdf r hr
  rw [Bool.and_eq_true, Bool.and_eq_true] at hpred
  have heq : lineaCleanSTC raw = pyLower t := by
    rw [← hraw]
    exact beq_iff_eq.mp hpred.1.1
  rw [Bool.or_eq_true] at ht
  rcases ht with ht | ht
  · rw [hasDiacritic, List.any_eq_true] at ht
    obtain ⟨c, hc, hfind⟩ := ht
    rw [← heq] at hc
    obtain ⟨b, -, rfl⟩ := List.mem_map.mp hc
    rw [unidecodeChar_not_key b] at hfind
    cases hfind
  · have hge : goodEdges (lineaCleanSTC raw) = true :=
      goodEdges_unidecode (goodEdges_pyStrip _)
    rw [hasEdgeWS, Bool.or_eq_true] at ht
    rcases ht with ht | ht
    · cases hh : (pyLower t).head? with
      | none => rw [hh] at ht; cases ht
      | some c =>
        rw [hh, Option.any_some] at ht
        rw [← heq] at hh
        rw [goodEdges_head hge hh] at ht
        cases ht
    · cases hh : (pyLower t).getLast? with
      | none => rw [hh] at ht; cases ht
      | some c =>
        rw [hh, Option.any_some] at ht
        rw [← heq] at hh
        rw [goodEdges_last hge hh] at ht
        cases ht

/-- C10 (witness): the dataset `dfC10w` contains the record whose normalized
line key corresponds to `Línea 1`, yet filtering with the target `Línea 1`
(whose lowercase form keeps its diacritic) selects nothing. -/
theorem filter_unnormalized_target_empty_witness :
    filterData dfC10w "Línea 1".data ⟨2024, 1, 1⟩ ⟨2024, 12, 31⟩ = [] :=
  filter_unnormalized_target_empty dfC10w "Línea 1".data ⟨2024, 1, 1⟩ ⟨2024, 12, 31⟩
    (by
      intro r hr
      cases hr with
      | head => exact ⟨"Línea 1".data, rfl⟩
      | tail _ h => cases h)
    (by decide)

/-! Claim C1: the chart's Total column. -/

theorem sum_shift {α : Type} [DecidableEq α] :
    ∀ (xs : List α) (f g : α → Nat) (a : α), xs.Nodup → a ∈ xs →
      (∀ x ∈ xs, x ≠ a → f x = g x) → g a = 0 →
      (xs.map f).sum = (xs.map g).sum + f a := by
  intro xs
  induction xs with
  | nil => intro f g a _ ha _ _; cases ha
  | cons x t ih =>
    intro f g a hnd ha hfg hga
    rw [List.nodup_cons] at hnd
    rw [List.map_cons, List.map_cons, List.sum_cons, List.sum_cons]
    rcases List.mem_cons.mp ha with rfl | hat
    · have hrest : ∀ y ∈ t, f y = g y := fun y hy =>
        hfg y (List.mem_cons_of_mem _ hy) (fun he => hnd.1 (he ▸ hy))
      rw [List.map_congr_left hrest, hga]
      omega
    · have hxa : x ≠ a := fun he => hnd.1 (he ▸ hat)
      rw [hfg x (List.mem_cons_self _ _) hxa]
      rw [ih f g a hnd.2 hat (fun y hy hne => hfg y (List.mem_cons_of_mem _ hy) hne) hga]
      omega

/-- C1: whenever the pivot's uniqueness precondition holds, the chart's
`Total` value at each year-month bucket equals the sum of ridership over all
records of the filtered set at that bucket — i.e. over all stations present
there, not only the five displayed ones. -/
theorem chart_total_eq (l : List Row) (h : pivotOk l) (ym : Str) :
    chartTotal l ym = ((l.filter fun r => r.year_month == ym).map (·.afluencia)).sum := by
  induction l with
  | nil => rfl
  | cons r t ih =>
    simp only [pivotOk, List.map_cons, List.nodup_cons] at h
    have iht := ih h.2
    rw [chartTotal, stationsOf, List.map_cons, List.filter_cons]
    rw [chartTotal, stationsOf] at iht
    by_cases hym : (r.year_month == ym) = true
    case pos =>
      have heq : r.year_month = ym := beq_iff_eq.mp hym
      rw [if_pos (by rw [hym])]
      rw [List.map_cons, List.sum_cons]
      have hcell_eq : pivotCell (r :: t) ym r.estacion_clean = some r.afluencia := by
        rw [pivotCell, List.find?_cons_of_pos _ (by simp [hym])]
        rfl
      have hcell_ne : ∀ s, s ≠ r.estacion_clean →
          pivotCell (r :: t) ym s = pivotCell t ym s := by
        intro s hs
        rw [pivotCell, pivotCell, List.find?_cons_of_neg]
        simp only [Bool.and_eq_true, beq_iff_eq]
        intro hcon
        exact hs hcon.2.symm
      have hnone : pivotCell t ym r.estacion_clean = none := by
        rw [pivotCell, List.find?_eq_none.mpr, Option.map_none']
        intro x hx hcon
        simp only [Bool.and_eq_true, beq_iff_eq] at hcon
        exact h.1 (List.mem_map.mpr ⟨x, hx, by rw [hcon.1, hcon.2, heq]⟩)
      by_cases hmem : r.estacion_clean ∈ t.map (·.estacion_clean)
      case pos =>
        rw [List.dedup_cons_of_mem hmem]
        have hshift := sum_shift ((t.map (·.estacion_clean)).dedup)
          (fun s => (pivotCell (r :: t) ym s).getD 0)
          (fun s => (pivotCell t ym s).getD 0)
          r.estacion_clean (List.nodup_dedup _) (List.mem_dedup.mpr hmem)
          (fun s _ hs => by
            show (pivotCell (r :: t) ym s).getD 0 = (pivotCell t ym s).getD 0
            rw [hcell_ne s hs])
          (by
            show (pivotCell t ym r.estacion_clean).getD 0 = 0
            rw [hnone]
            rfl)
        rw [hshift, iht]
        show _ = r.afluencia + _
        rw [show (fun s => (pivotCell (r :: t) ym s).getD 0) r.estacion_clean
            = (pivotCell (r :: t) ym r.estacion_clean).getD 0 from rfl]
        rw [hcell_eq]
        simp only [Option.getD_some]
        omega
      case neg =>
        rw [List.dedup_cons_of_not_mem hmem]
        rw [List.map_cons, List.sum_cons]
        rw [hcell_eq]
        have hcong : ∀ s ∈ (t.map (·.estacion_clean)).dedup,
            (fun s => (pivotCell (r :: t) ym s).getD 0) s
              = (fun s => (pivotCell t ym s).getD 0) s := by
          intro s hs
          have hsne : s ≠ r.estacion_clean := by
            intro he
            exact hmem (he ▸ List.mem_dedup.mp hs)
          show (pivotCell (r :: t) ym s).getD 0 = (pivotCell t ym s).getD 0
          rw [hcell_ne s hsne]
        rw [List.map_congr_left hcong, iht]
        simp only [Option.getD_some]
    case neg =>
      have hymf : (r.year_month == ym) = false := Bool.eq_false_iff.mpr hym
      rw [if_neg (by rw [hymf]; simp)]
      have hcells : ∀ s, pivotCell (r :: t) ym s = pivotCell t ym s := by
        intro s
        rw [pivotCell, pivotCell, List.find?_cons_of_neg]
        rw [hymf]
        simp
      have hcong : ∀ s ∈ (t.map (·.estacion_clean)).dedup,
          (fun s => (pivotCell (r :: t) ym s).getD 0) s
            = (fun s => (pivotCell t ym s).getD 0) s := by
        intro s _
        show (pivotCell (r :: t) ym s).getD 0 = (pivotCell t ym s).getD 0
        rw [hcells s]
      by_cases hmem : r.estacion_clean ∈ t.map (·.estacion_clean)
      case pos =>
        rw [List.dedup_cons_of_mem hmem]
        rw [List.map_congr_left hcong, iht]
      case neg =>
        rw [List.dedup_cons_of_not_mem hmem]
        rw [List.map_cons, List.sum_cons]
        have hzero : pivotCell (r :: t) ym r.estacion_clean = none := by
          rw [hcells, pivotCell, List.find?_eq_none.mpr, Option.map_none']
          intro x hx hcon
          simp only [Bool.and_eq_true, beq_iff_eq] at hcon
          exact hmem (List.mem_map.mpr ⟨x, hx, hcon.2⟩)
        rw [hzero]
        rw [List.map_congr_left hcong, iht]
        simp

/-- C1 (witness): on the concrete filtered set `rowsC1w` the Total value of
bucket 2024-01 is 150, the sum over both stations present there. -/
theorem chart_total_eq_witness :
    chartTotal rowsC1w "2024-01".data = 150 ∧
    chartTotal rowsC1w "2024-01".data
      = ((rowsC1w.filter fun r => r.year_month == "2024-01".data).map (·.afluencia)).sum :=
  ⟨by decide, chart_total_eq rowsC1w (by decide) "2024-01".data⟩

/-! Claim C2: map marker sizing. -/

theorem mem_foldr_max : ∀ (l : List Nat) (x : Nat), x ∈ l → x ≤ l.foldr Nat.max 0 := by
  intro l
  induction l with
  | nil => intro x hx; cases hx
  | cons a t ih =>
    intro x hx
    rcases List.mem_cons.mp hx with rfl | hx2
    · exact Nat.le_max_left _ _
    · exact le_trans (ih x hx2) (Nat.le_max_right _ _)

/-- C2: in a sized aggregate with positive maximum ridership, every station's
marker size is its ridership divided by the maximum times 1000 (hence linear
in ridership and at most 1000), and a station holding the maximum receives
exactly the configured constant 1000. -/
theorem map_size_spec (l : List Row) (_hne : l ≠ []) (hpos : 0 < maxAfl l) :
    ∀ a ∈ stationsAggregateSized l,
      a.size = (a.afluencia : ℚ) / (maxAfl l : ℚ) * 1000 ∧
      a.size ≤ 1000 ∧
      (a.afluencia = maxAfl l → a.size = 1000) := by
  intro a ha
  obtain ⟨p, hp, rfl⟩ := List.mem_map.mp ha
  have hM : (0 : ℚ) < (maxAfl l : ℚ) := by exact_mod_cast hpos
  refine ⟨rfl, ?_, ?_⟩
  · have hle : p.2.1 ≤ maxAfl l := by
      apply mem_foldr_max
      exact List.mem_map.mpr ⟨p, hp, rfl⟩
    show (p.2.1 : ℚ) / (maxAfl l : ℚ) * 1000 ≤ 1000
    have hdiv : (p.2.1 : ℚ) / (maxAfl l : ℚ) ≤ 1 :=
      div_le_one_of_le₀ (by exact_mod_cast hle) (le_of_lt hM)
    calc (p.2.1 : ℚ) / (maxAfl l : ℚ) * 1000 ≤ 1 * 1000 :=
          mul_le_mul_of_nonneg_right hdiv (by norm_num)
      _ = 1000 := by norm_num
  · intro hmax
    have hmax2 : p.2.1 = maxAfl l := hmax
    show (p.2.1 : ℚ) / (maxAfl l : ℚ) * 1000 = 1000
    rw [hmax2, div_self (ne_of_gt hM), one_mul]

/-- C2 (witness): on the concrete filtered set `rowsC2w`, station `a` holds
the maximal aggregated ridership and its marker size is exactly 1000. -/
theorem map_size_spec_witness :
    aggC2 ∈ stationsAggregateSized rowsC2w ∧ aggC2.size = 1000 := by
  have hmem : aggC2 ∈ stationsAggregateSized rowsC2w :=
    List.mem_map.mpr ⟨aggRow rowsC2w "a".data,
      List.mem_map.mpr ⟨"a".data, by decide, rfl⟩, rfl⟩
  exact ⟨hmem, (map_size_spec rowsC2w (by decide) (by decide) aggC2 hmem).2.2 (by decide)⟩

/-! Claim C4: stations with null coordinates and the marker-size
computation. -/

/-- C4 (counterexample): a station whose geometry join missed (null
coordinates) is not excluded from the marker-size computation: in
`rowsC4null` the join-missed station `b` appears in the sized aggregate, and
its ridership even sets the scale (its size is the maximal 1000). -/
theorem null_coord_station_in_sizes :
    ∃ a ∈ stationsAggregateSized rowsC4null, a.lat = none ∧ a.lon = none ∧ a.size = 1000 := by
  refine ⟨_, List.mem_map.mpr ⟨aggRow rowsC4null "b".data,
    List.mem_map.mpr ⟨"b".data, by decide, rfl⟩, rfl⟩, by decide, by decide, ?_⟩
  show ((aggRow rowsC4null "b".data).2.1 : ℚ) / ((maxAfl rowsC4null : ℚ)) * 1000 = 1000
  rw [show (aggRow rowsC4null "b".data).2.1 = 400 from by decide,
      show maxAfl rowsC4null = 400 from by decide]
  norm_num

/-- C4 (amended): `stations_aggregate` keeps every station of the filtered
set — null coordinates included — and the marker sizes depend only on the
(station, ridership) projection of the rows, never on the coordinates; any
dropping of null-coordinate rows is left to the external map renderer. -/
theorem stations_aggregate_no_drop (l l' : List Row)
    (hproj : l.map (fun r => (r.estacion_clean, r.afluencia))
      = l'.map (fun r => (r.estacion_clean, r.afluencia))) :
    (stationsAggregateSized l).map (fun a => a.estacion_clean)
        = (l.map (fun r => r.estacion_clean)).dedup
    ∧ (stationsAggregateSized l).map (fun a => (a.estacion_clean, a.size))
        = (stationsAggregateSized l').map (fun a => (a.estacion_clean, a.size)) := by
  have hst : l.map (fun r => r.estacion_clean) = l'.map (fun r => r.estacion_clean) := by
    have h2 := congrArg (List.map Prod.fst) hproj
    rw [List.map_map, List.map_map] at h2
    exact h2
  have hstations : stationsOf l = stationsOf l' := by
    rw [stationsOf, stationsOf, hst]
  have hsum : ∀ s, stationTotalSum l s = stationTotalSum l' s := by
    intro s
    have h1 : ∀ (m : List Row),
        stationTotalSum m s
          = (((m.map (fun r => (r.estacion_clean, r.afluencia))).filter
              (fun p => p.1 == s)).map (fun p => p.2)).sum := by
      intro m
      rw [List.filter_map, List.map_map]
      rfl
    rw [h1 l, h1 l', hproj]
  constructor
  · rw [stationsAggregateSized, stationsAggregate, List.map_map, List.map_map, stationsOf]
    exact List.map_id' _
  · have hmax : maxAfl l = maxAfl l' := by
      rw [maxAfl, maxAfl, stationsAggregate, stationsAggregate]
      rw [List.map_map, List.map_map, hstations]
      congr 1
      apply List.map_congr_left
      intro s _
      show stationTotalSum l s = stationTotalSum l' s
      exact hsum s
    rw [stationsAggregateSized, stationsAggregateSized, stationsAggregate,
      stationsAggregate, List.map_map, List.map_map, List.map_map, List.map_map,
      hstations]
    apply List.map_congr_left
    intro s _
    show (s, (stationTotalSum l s : ℚ) / (maxAfl l : ℚ) * 1000)
        = (s, (stationTotalSum l' s : ℚ) / (maxAfl l' : ℚ) * 1000)
    rw [hsum s, hmax]

/-- C4 (amended, witness): `rowsC4null` and `rowsC4geo` share the same
(station, ridership) rows and differ only in coordinates (one join missed,
one matched); the aggregate keeps both stations and assigns identical
sizes. -/
theorem stations_aggregate_no_drop_witness :
    (stationsAggregateSized rowsC4null).map (fun a => a.estacion_clean)
        = (rowsC4null.map (fun r => r.estacion_clean)).dedup
    ∧ (stationsAggregateSized rowsC4null).map (fun a => (a.estacion_clean, a.size))
        = (stationsAggregateSized rowsC4geo).map (fun a => (a.estacion_clean, a.size)) :=
  stations_aggregate_no_drop rowsC4null rowsC4geo (by decide)

/-! Claim C9: reachability of the pivot's duplicate-entry failure. -/

theorem groupby_triples_nodup (df : List StcRow) :
    ((groupbyMonthStation df).map
      (fun r => (r.year_month, r.linea_clean, r.estacion_clean))).Nodup := by
  rw [groupbyMonthStation, List.map_map]
  show (((df.map stcKey).dedup).map (fun k => k)).Nodup
  rw [List.map_id']
  exact List.nodup_dedup _

theorem mergeRow_triples (stations : List StationInfo) (r : MonthRow)
    (hgeo : (stations.map fun s => (s.estacion_clean, s.linea_clean)).Nodup) :
    (mergeRow stations r).map (fun q => (q.year_month, q.linea_clean, q.estacion_clean))
      = [(r.year_month, r.linea_clean, r.estacion_clean)] := by
  rw [mergeRow]
  cases hfil : stations.filter
      (fun s => s.estacion_clean == r.estacion_clean && s.linea_clean == r.linea_clean) with
  | nil => rfl
  | cons s ms =>
    have hkey : ∀ x ∈ stations.filter
        (fun s => s.estacion_clean == r.estacion_clean && s.linea_clean == r.linea_clean),
        x.estacion_clean = r.estacion_clean ∧ x.linea_clean = r.linea_clean := by
      intro x hx
      have h2 := (List.mem_filter.mp hx).2
      rw [Bool.and_eq_true, beq_iff_eq, beq_iff_eq] at h2
      exact h2
    have hms : ms = [] := by
      cases ms with
      | nil => rfl
      | cons s2 ms2 =>
        exfalso
        have hnd : ((stations.filter
            (fun s => s.estacion_clean == r.estacion_clean
              && s.linea_clean == r.linea_clean)).map
              (fun s => (s.estacion_clean, s.linea_clean))).Nodup :=
          List.Nodup.sublist (List.Sublist.map _ (List.filter_sublist _)) hgeo
        rw [hfil, List.map_cons, List.map_cons, List.nodup_cons] at hnd
        apply hnd.1
        have h1 := hkey s (hfil ▸ List.mem_cons_self _ _)
        have h2 := hkey s2 (hfil ▸ List.mem_cons_of_mem _ (List.mem_cons_self _ _))
        rw [h1.1, h1.2, h2.1, h2.2]
        exact List.mem_cons_self _ _
    subst hms
    rfl

theorem merge_triples (df : List MonthRow) (stations : List StationInfo)
    (hgeo : (stations.map fun s => (s.estacion_clean, s.linea_clean)).Nodup) :
    (mergeStations df stations).map
        (fun q => (q.year_month, q.linea_clean, q.estacion_clean))
      = df.map (fun r => (r.year_month, r.linea_clean, r.estacion_clean)) := by
  induction df with
  | nil => rfl
  | cons r t ih =>
    rw [show mergeStations (r :: t) stations
        = mergeRow stations r ++ mergeStations t stations from rfl]
    rw [List.map_append, mergeRow_triples stations r hgeo, ih, List.map_cons]
    rfl

/-- C9 (amended): the pivot's uniqueness precondition holds for every
filtered set the pipeline produces, provided the geometry table has no
duplicate (station, line) key — the aggregation step makes the
(year-month, line, station) triples unique, a duplicate-free left merge
preserves them, and filtering both selects a sublist and fixes the line. -/
theorem pivot_ok_of_unique_geo (df : List StcRow) (stations : List StationInfo)
    (t : Str) (sd ed : PyDate)
    (hgeo : (stations.map fun s => (s.estacion_clean, s.linea_clean)).Nodup) :
    pivotOk (filterData (dfMonthEstacion df stations) t sd ed) := by
  have htrip : ((dfMonthEstacion df stations).map
      (fun r => (r.year_month, r.linea_clean, r.estacion_clean))).Nodup := by
    rw [dfMonthEstacion, merge_triples _ _ hgeo]
    exact groupby_triples_nodup df
  have hsub : (filterData (dfMonthEstacion df stations) t sd ed).Sublist
      (dfMonthEstacion df stations) := List.filter_sublist _
  have htripf : ((filterData (dfMonthEstacion df stations) t sd ed).map
      (fun r => (r.year_month, r.linea_clean, r.estacion_clean))).Nodup :=
    List.Nodup.sublist (List.Sublist.map _ hsub) htrip
  have hlin : ∀ r ∈ filterData (dfMonthEstacion df stations) t sd ed,
      r.linea_clean = pyLower t := by
    intro r hr
    have h2 := (List.mem_filter.mp hr).2
    rw [Bool.and_eq_true, Bool.and_eq_true] at h2
    exact beq_iff_eq.mp h2.1.1
  show ((filterData (dfMonthEstacion df stations) t sd ed).map
      (fun r => (r.year_month, r.estacion_clean))).Nodup
  have hsplit : (filterData (dfMonthEstacion df stations) t sd ed).map
      (fun r => (r.year_month, r.estacion_clean))
      = ((filterData (dfMonthEstacion df stations) t sd ed).map
          (fun r => (r.year_month, r.linea_clean, r.estacion_clean))).map
        (fun k => (k.1, k.2.2)) := by
    rw [List.map_map]
    rfl
  rw [hsplit]
  apply List.Nodup.map_on _ htripf
  intro x hx y hy hxy
  obtain ⟨rx, hrx, rfl⟩ := List.mem_map.mp hx
  obtain ⟨ry, hry, rfl⟩ := List.mem_map.mp hy
  have h1 := hlin rx hrx
  have h2 := hlin ry hry
  have hym : rx.year_month = ry.year_month := congrArg Prod.fst hxy
  have hest : rx.estacion_clean = ry.estacion_clean := congrArg Prod.snd hxy
  show (rx.year_month, rx.linea_clean, rx.estacion_clean)
      = (ry.year_month, ry.linea_clean, ry.estacion_clean)
  rw [hym, hest, h1, h2]

/-- C9 (counterexample): the claim fails as stated: when the geometry table
carries a duplicated (station, line) key, the left merge — part of the actual
pipeline the claim describes — duplicates the aggregated row, the filtered
set violates the uniqueness precondition, and the pivot's duplicate-entry
failure branch is reached. -/
theorem pivot_precondition_violated : ¬ pivotOk filteredC9dup := by decide

/-- C9 (witness): with the duplicate-free geometry table `geoC9ok` the
pipeline output satisfies the pivot precondition. -/
theorem pivot_ok_of_unique_geo_witness :
    pivotOk (filterData (dfMonthEstacion stcC9dup geoC9ok) "linea 1".data
      ⟨2024, 1, 1⟩ ⟨2024, 12, 31⟩) :=
  pivot_ok_of_unique_geo stcC9dup geoC9ok "linea 1".data ⟨2024, 1, 1⟩ ⟨2024, 12, 31⟩
    (by decide)

/-! Claim C7: the spec's end-to-end example. -/

/-- C7: on the example's rows, filtering line `line 1` over
January-February 2024 produces a chart whose displayed stations are A and B,
a Total series of [150, 200], and a table ranked [A: 300, B: 50]. -/
theorem end_to_end_example :
    (loadData csvC7).isSome = true ∧
    top5 filteredC7 = ["station a".data, "station b".data] ∧
    totalSeries filteredC7 = [150, 200] ∧
    tableRanking filteredC7 = [("station a".data, 300), ("station b".data, 50)] := by
  decide

end Afluencia
